import Mathlib

/-!
Shallow embedding of the MRtrix thread-launch framework
(`src/lib/thread.h`, namespace `MR::Thread`) and proofs about it.

The embedding models:
- `MR::Exception` values as `Exc` (identified by their message);
- `std::future<void>` as `Future` (validity flag + stored outcome of the
  asynchronous entry operation: `some e` if it threw `e`, `none` on success);
- `__single_thread::wait` / destructor, `__multi_thread`'s constructor,
  `wait` and destructor, translated statement by statement;
- `__Multi` (the replication-request carrier) and the `__run` dispatch;
- `__Backend::register_thread` / `unregister_thread` as a state machine on
  `Option Nat` (`none` = no backend instance, `some r` = instance with
  refcount `r`), plus a micro-step trace recording, for each state
  mutation in those two functions, whether the backend mutex is held at
  the point the mutation executes (C++ rule: the unnamed
  `std::lock_guard` temporary is destroyed at the end of its own
  full-expression, releasing the lock before the following statements run);
- the launch/teardown ordering of `__thread_base`/`__single_thread` as an
  event trace.
-/

namespace MR

namespace Thread

/-- An `MR::Exception` failure value, identified by its message. -/
structure Exc where
  msg : String
deriving DecidableEq, Repr

/-- Model of `std::future<void>`: `valid` mirrors `std::future::valid()`,
`outcome` is what the asynchronous entry operation left in the shared
state (`some e` = it threw `e`, `none` = it returned normally). -/
structure Future where
  valid : Bool
  outcome : Option Exc
deriving DecidableEq, Repr

/-- Externally observable events of a wait/teardown: a diagnostic emitted
via `Exception::display()`, or an exception propagated to the caller. -/
inductive Event where
  | diag (e : Exc)
  | raised (e : Exc)
deriving DecidableEq, Repr

/-- Model of `std::future::get()`: returns the stored outcome (re-raising a stored
exception as `Except.error`) and leaves the future invalid. -/
def Future.get (f : Future) : Except Exc Unit × Future :=
  ((match f.outcome with
    | some e => Except.error e
    | none => Except.ok ()),
   { f with valid := false })

/-- Source `__single_thread::wait()`: `thread.get();` — blocks until the unit
terminates and re-raises the failure it stored, if any. -/
def singleWait (f : Future) : Except Exc Unit × Future :=
  f.get

/-- Result of running a handle's destructor: what escapes the destructor
(`propagated`), the diagnostics emitted, and whether a join was
performed. -/
structure DtorResult where
  propagated : Except Exc Unit
  events : List Event
  joined : Bool
deriving Repr

/-- Source `__single_thread::~__single_thread()`:
`if (thread.valid()) try wait() catch (Exception e) e.display();`.
The `catch` converts the re-raised failure into a diagnostic, so nothing
escapes the destructor. -/
def singleDestructor (f : Future) : DtorResult :=
  if f.valid then
    match (singleWait f).1 with
    | Except.error e =>
        { propagated := Except.ok (), events := [Event.diag e], joined := true }
    | Except.ok _ =>
        { propagated := Except.ok (), events := [], joined := true }
  else
    { propagated := Except.ok (), events := [], joined := false }

/-- The aggregate exception thrown by `__multi_thread::wait` when at
least one worker failed. -/
def aggExc (name : String) : Exc :=
  ⟨"exception thrown from one or more threads \"" ++ name ++ "\""⟩

/-- The loop of `__multi_thread::wait`: for each future in order, skip it
if invalid (`continue`), otherwise `get()` it; a caught exception sets
the flag and is displayed. Returns (exception-thrown flag, diagnostics
in emission order, the futures after the loop). -/
def multiWaitLoop : List Future → Bool × List Exc × List Future
  | [] => (false, [], [])
  | t :: ts =>
    let r := multiWaitLoop ts
    if t.valid then
      match t.outcome with
      | some e => (true, e :: r.2.1, { t with valid := false } :: r.2.2)
      | none => (r.1, r.2.1, { t with valid := false } :: r.2.2)
    else
      (r.1, r.2.1, t :: r.2.2)

/-- Source `__multi_thread::wait()`: run the loop over all futures; afterwards,
if the flag is set, throw the single aggregate exception. Returns
(diagnostics, result to caller, futures after the call). -/
def multiWait (name : String) (ts : List Future) :
    List Exc × Except Exc Unit × List Future :=
  let r := multiWaitLoop ts
  (r.2.1, if r.1 then Except.error (aggExc name) else Except.ok (), r.2.2)

/-- The observable event sequence of one `__multi_thread::wait()` call:
the per-worker diagnostics, in loop order, followed by the aggregate
raise when the flag was set. -/
def multiWaitEvents (name : String) (ts : List Future) : List Event :=
  (multiWait name ts).1.map Event.diag ++
    (match (multiWait name ts).2.1 with
     | Except.error e => [Event.raised e]
     | Except.ok _ => [])

/-- Source `__multi_thread::~__multi_thread()`: `try wait() catch (Exception e)
e.display();` — the aggregate, if raised, is displayed instead of
propagated. -/
def multiDestructor (name : String) (ts : List Future) :
    Except Exc Unit × List Event :=
  match (multiWait name ts).2.1 with
  | Except.error e =>
      (Except.ok (), (multiWait name ts).1.map Event.diag ++ [Event.diag e])
  | Except.ok _ =>
      (Except.ok (), (multiWait name ts).1.map Event.diag)

/-- Identity of the functor instance an execution unit is bound to: one
of the `n-1` internally owned copies (by position in the `functors`
vector), or the caller's original functor. -/
inductive WorkerId where
  | copy (i : Nat)
  | original
deriving DecidableEq, Repr

/-- A `__multi_thread<F>` handle: the group's name, the `n-1` internally
owned copies (`functors (nthreads-1, functor)`), and, for each of the
started execution units in launch order, the identity of the functor
instance its `&F::execute` call is bound to. -/
structure GroupHandle (F : Type) where
  name : String
  functors : List F
  bound : List WorkerId
deriving DecidableEq, Repr

/-- Source `__multi_thread<F>::__multi_thread (functor, nthreads, name)`: fill
`functors` with `nthreads-1` copies of `functor`; launch one unit per
copy, then one unit for the original. -/
def multiThreadCtor {F : Type} (f : F) (n : Nat) (name : String) :
    GroupHandle F :=
  { name := name
    functors := List.replicate (n - 1) f
    bound := (List.range (n - 1)).map WorkerId.copy ++ [WorkerId.original] }

/-- A `__single_thread` handle: the name and the caller's functor the
single execution unit is bound to. -/
structure SingleHandle (F : Type) where
  name : String
  functor : F
deriving DecidableEq, Repr

/-- Source `__single_thread::__single_thread (functor, name)`: launch one unit
running `functor.execute`. -/
def singleThreadCtor {F : Type} (f : F) (name : String) : SingleHandle F :=
  { name := name, functor := f }

/-- Source `__Multi<F>`: the replication-request object produced by
`Thread::multi`; records the referenced functor and the replica count. -/
structure Multi (F : Type) where
  functor : F
  num : Nat
deriving DecidableEq, Repr

/-- Source `Thread::multi (functor, nthreads)`: build the request object. -/
def multi {F : Type} (f : F) (n : Nat) : Multi F :=
  { functor := f, num := n }

/-- Source `__Multi<F>::operator() (const X&)`: `assert (0); return false;`.
The first component records that the assertion fires, the second the
value returned when assertions are compiled out. -/
def Multi.callUnaryConst {F X : Type} (_ : Multi F) (_ : X) : Bool × Bool :=
  (true, false)

/-- Source `__Multi<F>::operator() (X&)`: `assert (0); return false;`. -/
def Multi.callUnary {F X : Type} (_ : Multi F) (_ : X) : Bool × Bool :=
  (true, false)

/-- Source `__Multi<F>::operator() (const X&, Y&)`: `assert (0); return false;`. -/
def Multi.callBinary {F X Y : Type} (_ : Multi F) (_ : X) (_ : Y) :
    Bool × Bool :=
  (true, false)

/-- The argument given to `Thread::run`: its constructor mirrors the
static type (`Functor` vs `__Multi<Functor>`) that selects the `__run`
template specialization at compile time. -/
inductive RunArg (F : Type) where
  | plain (f : F)
  | multiReq (m : Multi F)
deriving DecidableEq, Repr

/-- The handle type produced by `Thread::run`: `__run<Functor>::type =
__single_thread`, `__run<__Multi<Functor>>::type = __multi_thread<Functor>`. -/
inductive RunHandle (F : Type) where
  | single (h : SingleHandle F)
  | group (h : GroupHandle F)
deriving DecidableEq, Repr

/-- Source `Thread::run (functor, name)`: dispatch on the static type of the
argument — the generic `__run` builds a `__single_thread` from the
functor, the `__run<__Multi<F>>` specialization unwraps the request and
builds a `__multi_thread` from `functor.functor` and `functor.num`. -/
def run {F : Type} (a : RunArg F) (name : String) : RunHandle F :=
  match a with
  | RunArg.plain f => RunHandle.single (singleThreadCtor f name)
  | RunArg.multiReq m => RunHandle.group (multiThreadCtor m.functor m.num name)

/-- The sequential state of `__Backend::backend`: `none` when the static
pointer is null, `some r` when an instance with refcount `r` is live. -/
abbrev BackendState := Option Nat

namespace Backend

/-- Source `__Backend::register_thread()`: `if (!backend) backend = new __Backend;`
then `++backend->refcount;`.
Modelled from the spec: a freshly constructed `__Backend` starts with
refcount 0 — the constructor body lives in the (absent) `thread.cpp`, and
the spec describes registration as incrementing the count from 0 on the
0→1 transition. -/
def register_thread : BackendState → BackendState
  | none => some 1
  | some r => some (r + 1)

/-- Source `__Backend::unregister_thread()`: `--backend->refcount; if
(!backend->refcount) delete backend, backend = nullptr.` The second
component counts teardown events (1 when the instance is deleted).
Calling it with no live instance is undefined behaviour in the C++
(null dereference); the model returns the state unchanged there, and all
theorems below only traverse states where it cannot happen. -/
def unregister_thread : BackendState → BackendState × Nat
  | some r => if r - 1 = 0 then (none, 1) else (some (r - 1), 0)
  | none => (none, 0)

/-- A registration-interface operation. -/
inductive RegOp where
  | reg
  | unreg
deriving DecidableEq, Repr

/-- One operation applied to the backend state; second component is the
number of teardown events it caused. -/
def step (s : BackendState) : RegOp → BackendState × Nat
  | RegOp.reg => (register_thread s, 0)
  | RegOp.unreg => unregister_thread s

/-- Run a sequence of register/unregister operations from a state,
accumulating the total number of teardown events. -/
def runOps : BackendState → List RegOp → BackendState × Nat
  | s, [] => (s, 0)
  | s, op :: ops =>
    let p := step s op
    let q := runOps p.1 ops
    (q.1, p.2 + q.2)

/-- A balanced sequence of registrations and unregistrations: no prefix
has more unregistrations than registrations, and the totals agree. -/
def Balanced (ops : List RegOp) : Prop :=
  (∀ k ≤ ops.length,
      (ops.take k).count RegOp.unreg ≤ (ops.take k).count RegOp.reg) ∧
  ops.count RegOp.unreg = ops.count RegOp.reg

instance (ops : List RegOp) : Decidable (Balanced ops) := by
  unfold Balanced
  infer_instance

/-- One micro-step of `register_thread`/`unregister_thread`, as executed
by the C++ abstract machine: `tag` names the statement, `mutatesState`
says whether it writes the refcount or the lazy singleton pointer, and
`lockHeld` whether the backend mutex is held while it executes. The
statement `std::lock_guard<std::mutex> (__Backend::get_lock());`
constructs an unnamed temporary, so the mutex is unlocked again at the
end of that same full-expression, before the next statement runs. -/
structure MicroStep where
  tag : String
  mutatesState : Bool
  lockHeld : Bool
deriving DecidableEq, Repr

/-- The micro-steps of `__Backend::register_thread()`, in program order. -/
def registerSteps : List MicroStep :=
  [ { tag := "if (!backend) backend = new __Backend"
      mutatesState := true, lockHeld := false },
    { tag := "std::lock_guard<std::mutex> (__Backend::get_lock()) — unnamed temporary, lock released at end of this statement"
      mutatesState := false, lockHeld := true },
    { tag := "++backend->refcount"
      mutatesState := true, lockHeld := false } ]

/-- The micro-steps of `__Backend::unregister_thread()`, in program order. -/
def unregisterSteps : List MicroStep :=
  [ { tag := "std::lock_guard<std::mutex> (__Backend::get_lock()) — unnamed temporary, lock released at end of this statement"
      mutatesState := false, lockHeld := true },
    { tag := "--backend->refcount"
      mutatesState := true, lockHeld := false },
    { tag := "if (!backend->refcount) delete backend, backend = nullptr"
      mutatesState := true, lockHeld := false } ]

end Backend

/-- Events in the lifetime of a `__single_thread` handle. `asyncLaunch`
is the `std::async (std::launch::async, &F::execute, &functor)` call that
starts the execution unit; `join` is a blocking `get()` observing the
unit's termination. -/
inductive LaunchEvent where
  | registerThread
  | asyncLaunch
  | ctorReturn
  | join
  | unregisterThread
deriving DecidableEq, Repr

/-- The constructor of a `__single_thread`: the `__thread_base` base-class
constructor runs `__Backend::register_thread()` first, then the derived
constructor body starts the unit with `std::async`, then the constructor
returns; it contains no join. -/
def singleCtorEvents : List LaunchEvent :=
  [LaunchEvent.registerThread, LaunchEvent.asyncLaunch, LaunchEvent.ctorReturn]

/-- The destructor of a `__single_thread`: the derived destructor body
joins (via `wait()`) only when the future is still valid — i.e. when no
explicit `wait()` already consumed it — and then the `~__thread_base`
base-class destructor runs `__Backend::unregister_thread()`. -/
def singleDtorEvents (alreadyWaited : Bool) : List LaunchEvent :=
  (if alreadyWaited then [] else [LaunchEvent.join]) ++ [LaunchEvent.unregisterThread]

/-- The full event trace of a `__single_thread` handle's lifetime, with
or without an explicit `wait()` call between construction and
destruction. -/
def singleLifecycleEvents (explicitWait : Bool) : List LaunchEvent :=
  singleCtorEvents ++ (if explicitWait then [LaunchEvent.join] else []) ++
    singleDtorEvents explicitWait

/-! Helper lemmas about the wait loop. -/

/-- On a list of still-valid futures, the wait loop reports a failure iff
some outcome is an exception, emits exactly the stored exceptions in
order, and leaves every future invalid. -/
theorem multiWaitLoop_all_valid (ts : List Future)
    (h : ∀ t ∈ ts, t.valid = true) :
    multiWaitLoop ts =
      ((ts.any fun t => t.outcome.isSome),
       ts.filterMap Future.outcome,
       ts.map fun t => { t with valid := false }) := by
  induction ts with
  | nil => rfl
  | cons t ts ih =>
    have ht : t.valid = true := h t (List.mem_cons_self t ts)
    have hts : ∀ u ∈ ts, u.valid = true := fun u hu => h u (List.mem_cons_of_mem t hu)
    cases ho : t.outcome with
    | some e =>
      simp [multiWaitLoop, ih hts, ht, ho]
    | none =>
      simp [multiWaitLoop, ih hts, ht, ho]

/-- Every future coming out of the wait loop is invalid: consumed ones
were invalidated by `get()`, skipped ones were already invalid. -/
theorem multiWaitLoop_output_invalid (ts : List Future) :
    ∀ u ∈ (multiWaitLoop ts).2.2, u.valid = false := by
  induction ts with
  | nil => simp [multiWaitLoop]
  | cons t ts ih =>
    intro u hu
    by_cases ht : t.valid = true
    · cases ho : t.outcome with
      | some e =>
        simp only [multiWaitLoop, ht, ho, if_true] at hu
        rcases List.mem_cons.mp hu with h1 | h2
        · rw [h1]
        · exact ih u h2
      | none =>
        simp only [multiWaitLoop, ht, ho, if_true] at hu
        rcases List.mem_cons.mp hu with h1 | h2
        · rw [h1]
        · exact ih u h2
    · have ht' : t.valid = false := by
        cases hvt : t.valid
        · rfl
        · exact absurd hvt ht
      simp only [multiWaitLoop, ht', Bool.false_eq_true, if_false] at hu
      rcases List.mem_cons.mp hu with h1 | h2
      · rw [h1]; exact ht'
      · exact ih u h2

/-- On a list of already-invalid futures, the wait loop skips everything:
no flag, no diagnostics, futures unchanged. -/
theorem multiWaitLoop_all_invalid (ts : List Future)
    (h : ∀ t ∈ ts, t.valid = false) :
    multiWaitLoop ts = (false, [], ts) := by
  induction ts with
  | nil => rfl
  | cons t ts ih =>
    have ht : t.valid = false := h t (List.mem_cons_self t ts)
    have hts : ∀ u ∈ ts, u.valid = false := fun u hu => h u (List.mem_cons_of_mem t hu)
    simp [multiWaitLoop, ht, ih hts]

/-! Claim theorems. -/

/-- C1: for a group handle over `n ≥ 1` workers whose futures are all
still valid, `wait()` observes the outcome of every worker (it consumes
all `n` futures and drops none, returning only after the whole loop),
it raises exactly one aggregated failure if and only if at least one
worker failed, every per-worker failure is emitted as a diagnostic
before the aggregate raise, and if all workers succeeded the call
returns normally with no events. -/
theorem group_wait_observes_all_and_aggregates (name : String)
    (ts : List Future) (hn : 1 ≤ ts.length)
    (hv : ∀ t ∈ ts, t.valid = true) :
    ((multiWait name ts).2.2.length = ts.length ∧
      ∀ u ∈ (multiWait name ts).2.2, u.valid = false) ∧
    (multiWait name ts).1 = ts.filterMap Future.outcome ∧
    ((multiWait name ts).2.1 = Except.error (aggExc name) ↔
      ∃ t ∈ ts, t.outcome ≠ none) ∧
    ((∃ t ∈ ts, t.outcome ≠ none) →
      multiWaitEvents name ts =
        (ts.filterMap Future.outcome).map Event.diag ++
          [Event.raised (aggExc name)]) ∧
    ((∀ t ∈ ts, t.outcome = none) →
      (multiWait name ts).2.1 = Except.ok () ∧ multiWaitEvents name ts = []) := by
  have hloop := multiWaitLoop_all_valid ts hv
  have hany : (ts.any fun t => t.outcome.isSome) = true ↔ ∃ t ∈ ts, t.outcome ≠ none := by
    rw [List.any_eq_true]
    constructor
    · rintro ⟨t, ht, hs⟩
      exact ⟨t, ht, Option.ne_none_iff_isSome.mpr hs⟩
    · rintro ⟨t, ht, hs⟩
      exact ⟨t, ht, Option.ne_none_iff_isSome.mp hs⟩
  refine ⟨⟨?_, ?_⟩, ?_, ?_, ?_, ?_⟩
  · simp [multiWait, hloop]
  · intro u hu
    exact multiWaitLoop_output_invalid ts u hu
  · simp [multiWait, hloop]
  · by_cases hx : (ts.any fun t => t.outcome.isSome) = true
    · have herr : (multiWait name ts).2.1 = Except.error (aggExc name) := by
        simp [multiWait, hloop, hx]
      rw [herr]
      exact iff_of_true rfl (hany.mp hx)
    · have hok : (multiWait name ts).2.1 = Except.ok () := by
        simp [multiWait, hloop, hx]
      rw [hok]
      exact iff_of_false (by simp) (fun hex => hx (hany.mpr hex))
  · intro hex
    have hx : (ts.any fun t => t.outcome.isSome) = true := hany.mpr hex
    simp [multiWaitEvents, multiWait, hloop, hx]
  · intro hall
    have hx : (ts.any fun t => t.outcome.isSome) = false := by
      rw [Bool.eq_false_iff]
      intro hc
      rcases hany.mp hc with ⟨t, ht, hne⟩
      exact hne (hall t ht)
    have hnil : ts.filterMap Future.outcome = [] := by
      rw [List.filterMap_eq_nil_iff]
      exact hall
    constructor
    · simp [multiWait, hloop, hx]
    · simp [multiWaitEvents, multiWait, hloop, hx, hnil]

/-- Witness for C1 at a concrete group: two valid workers, the first
failed — `wait()` raises the single aggregate failure. -/
theorem group_wait_observes_all_and_aggregates_witness :
    (multiWait "work" [⟨true, some ⟨"boom"⟩⟩, ⟨true, none⟩]).2.1 =
      Except.error (aggExc "work") :=
  ((group_wait_observes_all_and_aggregates "work"
      [⟨true, some ⟨"boom"⟩⟩, ⟨true, none⟩] (by decide)
      (by decide)).2.2.1).mpr (by decide)

/-- C4: an explicit `wait()` on a single-thread handle whose future is
still valid re-raises the stored failure exactly once (as the single
error of its result), returns normally when the entry operation
succeeded, and leaves the future consumed. -/
theorem single_wait_reraises_once (f : Future) (hv : f.valid = true) :
    (∀ e : Exc, f.outcome = some e → (singleWait f).1 = Except.error e) ∧
    (f.outcome = none → (singleWait f).1 = Except.ok ()) ∧
    (singleWait f).2.valid = false := by
  refine ⟨?_, ?_, ?_⟩
  · intro e he
    simp [singleWait, Future.get, he]
  · intro he
    simp [singleWait, Future.get, he]
  · simp [singleWait, Future.get]

/-- Witness for C4 at a concrete failing worker. -/
theorem single_wait_reraises_once_witness :
    (singleWait ⟨true, some ⟨"boom"⟩⟩).1 = Except.error ⟨"boom"⟩ :=
  (single_wait_reraises_once ⟨true, some ⟨"boom"⟩⟩ rfl).1 ⟨"boom"⟩ rfl

/-- C5: destroying a handle without an explicit `wait()` never lets a
failure escape the destructor: the single-thread destructor joins,
converts the failure into exactly one diagnostic and propagates nothing;
the group destructor propagates nothing either, and when some worker
failed it emits each per-worker failure as a diagnostic followed by the
displayed aggregate. -/
theorem teardown_swallows_failures (f : Future) (e : Exc) (name : String)
    (ts : List Future) (hv : f.valid = true) (ho : f.outcome = some e)
    (hts : ∀ t ∈ ts, t.valid = true) :
    ((singleDestructor f).propagated = Except.ok () ∧
      (singleDestructor f).events = [Event.diag e]) ∧
    ((multiDestructor name ts).1 = Except.ok () ∧
      ((∃ t ∈ ts, t.outcome ≠ none) →
        (multiDestructor name ts).2 =
          (ts.filterMap Future.outcome).map Event.diag ++
            [Event.diag (aggExc name)])) := by
  have hloop := multiWaitLoop_all_valid ts hts
  refine ⟨⟨?_, ?_⟩, ?_, ?_⟩
  · simp [singleDestructor, singleWait, Future.get, hv, ho]
  · simp [singleDestructor, singleWait, Future.get, hv, ho]
  · rcases hr : (multiWait name ts).2.1 with e' | u
    · simp [multiDestructor, hr]
    · simp [multiDestructor, hr]
  · intro hex
    have hx : (ts.any fun t => t.outcome.isSome) = true := by
      rw [List.any_eq_true]
      rcases hex with ⟨t, ht, hne⟩
      exact ⟨t, ht, Option.ne_none_iff_isSome.mp hne⟩
    simp [multiDestructor, multiWait, hloop, hx]

/-- Witness for C5 at concrete failing workers for both handle kinds. -/
theorem teardown_swallows_failures_witness :
    (singleDestructor ⟨true, some ⟨"boom"⟩⟩).propagated = Except.ok () ∧
    (multiDestructor "grp" [⟨true, some ⟨"bad"⟩⟩]).2 =
      [Event.diag ⟨"bad"⟩, Event.diag (aggExc "grp")] :=
  ⟨(teardown_swallows_failures ⟨true, some ⟨"boom"⟩⟩ ⟨"boom"⟩ "grp"
      [⟨true, some ⟨"bad"⟩⟩] rfl rfl (by decide)).1.1,
   (teardown_swallows_failures ⟨true, some ⟨"boom"⟩⟩ ⟨"boom"⟩ "grp"
      [⟨true, some ⟨"bad"⟩⟩] rfl rfl (by decide)).2.2 (by decide)⟩

/-- C9: once an explicit `wait()` has consumed a handle's outcome, later
join attempts are no-ops: the single-thread destructor after a `wait()`
performs no join and emits nothing, and a second group `wait()` skips
every consumed future, emits no diagnostic, raises nothing and leaves
the futures untouched. -/
theorem outcome_observed_at_most_once (f : Future) (name : String)
    (ts : List Future) :
    singleDestructor (singleWait f).2 =
      { propagated := Except.ok (), events := [], joined := false } ∧
    multiWait name (multiWait name ts).2.2 =
      ([], Except.ok (), (multiWait name ts).2.2) := by
  constructor
  · simp [singleDestructor, singleWait, Future.get]
  · have hinv : ∀ u ∈ (multiWaitLoop ts).2.2, u.valid = false :=
      multiWaitLoop_output_invalid ts
    have h2 := multiWaitLoop_all_invalid _ hinv
    simp [multiWait, h2]

/-- C3: launching a group of `n ≥ 1` workers makes exactly `n-1`
internally owned copies of the functor (each equal to the original),
starts exactly `n` execution units, binds every unit to a distinct
functor instance, and includes the caller's original functor as one of
the `n` workers. -/
theorem group_launch_copies_and_units {F : Type} (f : F) (n : Nat)
    (name : String) (h : 1 ≤ n) :
    (multiThreadCtor f n name).functors.length = n - 1 ∧
    (∀ g ∈ (multiThreadCtor f n name).functors, g = f) ∧
    (multiThreadCtor f n name).bound.length = n ∧
    (multiThreadCtor f n name).bound.Nodup ∧
    WorkerId.original ∈ (multiThreadCtor f n name).bound := by
  refine ⟨by simp [multiThreadCtor], ?_, ?_, ?_, ?_⟩
  · intro g hg
    exact List.eq_of_mem_replicate hg
  · simp only [multiThreadCtor, List.length_append, List.length_map,
      List.length_range, List.length_cons, List.length_nil]
    omega
  · simp only [multiThreadCtor]
    apply List.Nodup.append
    · exact (List.nodup_range _).map fun a b hab => WorkerId.copy.inj hab
    · exact List.nodup_singleton _
    · intro x hx hx'
      rcases List.mem_map.mp hx with ⟨i, _, rfl⟩
      simp at hx'
  · simp [multiThreadCtor]

/-- Witness for C3 at `n = 3`. -/
theorem group_launch_copies_and_units_witness :
    (multiThreadCtor (0 : Nat) 3 "grp").functors.length = 2 ∧
    (multiThreadCtor (0 : Nat) 3 "grp").bound.length = 3 :=
  ⟨(group_launch_copies_and_units (0 : Nat) 3 "grp" (by decide)).1,
   (group_launch_copies_and_units (0 : Nat) 3 "grp" (by decide)).2.2.1⟩

/-- C7: the `run` entry point resolves purely on the form of its
argument: a plain functor yields a single-thread handle over that
functor, a replication request produced by `multi (f, n)` yields a group
handle over `n` units running the referenced functor; the request object
records the functor and the count. -/
theorem run_static_dispatch {F : Type} (f : F) (n : Nat) (name : String)
    (h : 1 ≤ n) :
    (multi f n).functor = f ∧
    (multi f n).num = n ∧
    run (RunArg.plain f) name = RunHandle.single (singleThreadCtor f name) ∧
    run (RunArg.multiReq (multi f n)) name =
      RunHandle.group (multiThreadCtor f n name) ∧
    (multiThreadCtor f n name).bound.length = n := by
  refine ⟨rfl, rfl, rfl, rfl, ?_⟩
  simp only [multiThreadCtor, List.length_append, List.length_map,
    List.length_range, List.length_cons, List.length_nil]
  omega

/-- Witness for C7 at a concrete functor and `n = 2`. -/
theorem run_static_dispatch_witness :
    run (RunArg.multiReq (multi (7 : Nat) 2)) "job" =
      RunHandle.group (multiThreadCtor (7 : Nat) 2 "job") ∧
    (multiThreadCtor (7 : Nat) 2 "job").bound.length = 2 :=
  ⟨(run_static_dispatch (7 : Nat) 2 "job" (by decide)).2.2.2.1,
   (run_static_dispatch (7 : Nat) 2 "job" (by decide)).2.2.2.2⟩

/-- C10: the replication request is a pure carrier — each of its three
call operators fires the assertion and returns `false` when assertions
are compiled out, and dispatch never invokes them: `run` on a request
unwraps it and builds the group handle from the referenced functor. -/
theorem multi_request_never_invoked {F X Y : Type} (m : Multi F) (x : X)
    (y : Y) (name : String) :
    Multi.callUnaryConst m x = (true, false) ∧
    Multi.callUnary m x = (true, false) ∧
    Multi.callBinary m x y = (true, false) ∧
    run (RunArg.multiReq m) name =
      RunHandle.group (multiThreadCtor m.functor m.num name) :=
  ⟨rfl, rfl, rfl, rfl⟩

/-- C8: in the lifecycle trace of a single-thread handle — with or
without an explicit `wait()` — registration with the process registry
precedes the start of the execution unit, the constructor segment
contains no blocking join (the launch returns immediately), and the
unregistration happens after the unit's termination has been observed,
exactly once. -/
theorem single_launch_register_ordering (w : Bool) :
    (singleLifecycleEvents w).indexOf LaunchEvent.registerThread <
      (singleLifecycleEvents w).indexOf LaunchEvent.asyncLaunch ∧
    (singleLifecycleEvents w).indexOf LaunchEvent.join <
      (singleLifecycleEvents w).indexOf LaunchEvent.unregisterThread ∧
    LaunchEvent.join ∉ singleCtorEvents ∧
    (singleLifecycleEvents w).count LaunchEvent.unregisterThread = 1 ∧
    (singleLifecycleEvents w).count LaunchEvent.registerThread = 1 := by
  cases w <;> decide

/-- C2 (refuting evaluation): in `register_thread` the lazy-singleton
write and the refcount increment, and in `unregister_thread` the
decrement and the delete, all execute with the backend mutex *not* held —
the `std::lock_guard` is an unnamed temporary whose lock is released at
the end of its own statement. Some micro-step mutates state, and every
state-mutating micro-step of both functions runs unlocked. -/
theorem backend_mutations_execute_unlocked :
    (∃ s ∈ Backend.registerSteps, s.mutatesState = true ∧ s.lockHeld = false) ∧
    (∀ s ∈ Backend.registerSteps ++ Backend.unregisterSteps,
      s.mutatesState = true → s.lockHeld = false) := by
  decide

/-! Helper lemmas about the backend registration state machine. -/

/-- Running a sequence split as an append: states thread through, the
teardown counts add. -/
theorem Backend.runOps_append (s : BackendState) (xs ys : List Backend.RegOp) :
    Backend.runOps s (xs ++ ys) =
      ((Backend.runOps (Backend.runOps s xs).1 ys).1,
        (Backend.runOps s xs).2 + (Backend.runOps (Backend.runOps s xs).1 ys).2) := by
  induction xs generalizing s with
  | nil => simp [Backend.runOps]
  | cons op ops ih =>
    simp [Backend.runOps, ih, Nat.add_assoc]

/-- Registrations from a live instance only increment the refcount. -/
theorem Backend.runOps_reg_replicate (r k : Nat) :
    Backend.runOps (some r) (List.replicate k Backend.RegOp.reg) =
      (some (r + k), 0) := by
  induction k generalizing r with
  | zero => simp [Backend.runOps]
  | succ m ih =>
    rw [List.replicate_succ]
    simp only [Backend.runOps, Backend.step, Backend.register_thread, ih]
    have harith : r + 1 + m = r + (m + 1) := by omega
    rw [harith]

/-- From no instance, `k ≥ 1` registrations construct once and leave
refcount `k`, with no teardown. -/
theorem Backend.runOps_reg_from_none (k : Nat) (h : 1 ≤ k) :
    Backend.runOps none (List.replicate k Backend.RegOp.reg) = (some k, 0) := by
  obtain ⟨m, rfl⟩ : ∃ m, k = m + 1 := ⟨k - 1, by omega⟩
  rw [List.replicate_succ]
  simp only [Backend.runOps, Backend.step, Backend.register_thread,
    Backend.runOps_reg_replicate]
  have harith : 1 + m = m + 1 := by omega
  rw [harith]

/-- Fewer unregistrations than the refcount never tear down. -/
theorem Backend.runOps_unreg_lt (k r : Nat) (h : k < r) :
    Backend.runOps (some r) (List.replicate k Backend.RegOp.unreg) =
      (some (r - k), 0) := by
  induction k generalizing r with
  | zero => simp [Backend.runOps]
  | succ m ih =>
    rw [List.replicate_succ]
    have hr : ¬(r - 1 = 0) := by omega
    simp only [Backend.runOps, Backend.step, Backend.unregister_thread, hr,
      if_false, ih (r - 1) (by omega)]
    have harith : r - 1 - m = r - (m + 1) := by omega
    rw [harith]

/-- Exactly `r` unregistrations from refcount `r ≥ 1` tear down exactly
once, on the last operation. -/
theorem Backend.runOps_unreg_exact (r : Nat) (h : 1 ≤ r) :
    Backend.runOps (some r) (List.replicate r Backend.RegOp.unreg) =
      (none, 1) := by
  have hsplit : List.replicate r Backend.RegOp.unreg =
      List.replicate (r - 1) Backend.RegOp.unreg ++ [Backend.RegOp.unreg] := by
    rw [← List.replicate_succ']
    congr 1
    omega
  by_cases h1 : r = 1
  · subst h1
    simp [Backend.runOps, Backend.step, Backend.unregister_thread]
  · rw [hsplit, Backend.runOps_append, Backend.runOps_unreg_lt (r - 1) r (by omega)]
    have h2 : r - (r - 1) = 1 := by omega
    simp [h2, Backend.runOps, Backend.step, Backend.unregister_thread]

/-- C6 counterexample: the interleaved sequence reg, unreg, reg, unreg is
a balanced sequence of 2 registrations and 2 unregistrations, yet the
backend state is torn down twice, not exactly once. -/
theorem backend_balanced_interleaving_two_teardowns :
    Backend.Balanced [Backend.RegOp.reg, Backend.RegOp.unreg,
      Backend.RegOp.reg, Backend.RegOp.unreg] ∧
    (Backend.runOps none [Backend.RegOp.reg, Backend.RegOp.unreg,
      Backend.RegOp.reg, Backend.RegOp.unreg]).2 = 2 ∧
    (Backend.runOps none [Backend.RegOp.reg, Backend.RegOp.unreg,
      Backend.RegOp.reg, Backend.RegOp.unreg]).2 ≠ 1 := by
  refine ⟨⟨?_, by decide⟩, by decide, by decide⟩
  decide

/-- C6 (amended): `register_thread` constructs the instance exactly on
the 0→1 transition and otherwise only increments; and for `N ≥ 1`
registrations followed by `N` unregistrations, the state ends torn down,
the teardown happens exactly once, and no proper prefix of the sequence
has torn anything down (never prematurely, while registrations remain
live). -/
theorem backend_refcount_updown (N : Nat) (h : 1 ≤ N) :
    Backend.register_thread none = some 1 ∧
    (∀ r, Backend.register_thread (some r) = some (r + 1)) ∧
    (Backend.runOps none (List.replicate N Backend.RegOp.reg ++
        List.replicate N Backend.RegOp.unreg)).1 = none ∧
    (Backend.runOps none (List.replicate N Backend.RegOp.reg ++
        List.replicate N Backend.RegOp.unreg)).2 = 1 ∧
    (∀ k < 2 * N,
      (Backend.runOps none ((List.replicate N Backend.RegOp.reg ++
          List.replicate N Backend.RegOp.unreg).take k)).2 = 0) := by
  have hfull :
      Backend.runOps none (List.replicate N Backend.RegOp.reg ++
        List.replicate N Backend.RegOp.unreg) = (none, 1) := by
    rw [Backend.runOps_append, Backend.runOps_reg_from_none N h,
      Backend.runOps_unreg_exact N h]
    rfl
  refine ⟨rfl, fun r => rfl, by rw [hfull], by rw [hfull], ?_⟩
  intro k hk
  rw [List.take_append_eq_append_take, List.take_replicate, List.take_replicate,
    List.length_replicate]
  by_cases hkN : k ≤ N
  · have hmin : min k N = k := by omega
    have hz : k - N = 0 := by omega
    rw [hmin, hz]
    simp only [Nat.zero_min, List.replicate_zero, List.append_nil]
    by_cases hk0 : k = 0
    · subst hk0
      simp [Backend.runOps]
    · rw [Backend.runOps_reg_from_none k (by omega)]
  · have hmin : min k N = N := by omega
    have hmin2 : min (k - N) N = k - N := by omega
    rw [hmin, hmin2, Backend.runOps_append, Backend.runOps_reg_from_none N h,
      Backend.runOps_unreg_lt (k - N) N (by omega)]
    rfl

/-- Witness for C6's amended theorem at `N = 2`: one teardown in total,
none after only three of the four operations. -/
theorem backend_refcount_updown_witness :
    (Backend.runOps none (List.replicate 2 Backend.RegOp.reg ++
        List.replicate 2 Backend.RegOp.unreg)).2 = 1 ∧
    (Backend.runOps none ((List.replicate 2 Backend.RegOp.reg ++
        List.replicate 2 Backend.RegOp.unreg).take 3)).2 = 0 :=
  ⟨(backend_refcount_updown 2 (by decide)).2.2.2.1,
   (backend_refcount_updown 2 (by decide)).2.2.2.2 3 (by decide)⟩

end Thread

end MR
